import Mathlib

/-!
Verification of the `pr-reviewer` pipeline.

Shallow embedding of the string-processing pipeline of `pr_reviewer`
(`src/pr_reviewer/main.py`, `src/pr_reviewer/utils/settings.py`,
`src/pr_reviewer/__main__.py`) together with proofs about it.

Python strings are modelled as Lean `String` (a wrapper around `List Char`);
all primitive string operations used by the program (`str.splitlines`,
`str.rstrip`, `str.strip`, `str.rsplit`, `str.startswith`, `"sep".join`,
f-string width formatting) are re-implemented below so that they compute
in the kernel.  Filesystem reads and `git` subprocess calls are modelled as
explicit inputs (a list of file entries, an oracle for `git diff`).
-/

namespace PRReviewer

/-! ## Python string primitives -/

/-- The line-break characters recognised by Python `str.splitlines`
(besides the two-character sequence `"\r\n"`, handled separately). -/
def isLineBreakChar (c : Char) : Bool :=
  c = '\n' || c = '\r' || c = '\x0b' || c = '\x0c' ||
  c = '\x1c' || c = '\x1d' || c = '\x1e' || c = '\x85' ||
  c = '\u2028' || c = '\u2029'

/-- Worker for `str.splitlines`: `acc` is the (line-break-free) current line;
the two-character sequence `"\r\n"` counts as a single break.  A final
unterminated line is emitted only when nonempty, matching Python. -/
def pySplitAux : List Char → List Char → List (List Char)
  | acc, [] => if acc = [] then [] else [acc]
  | acc, [c] =>
    if isLineBreakChar c then [acc] else [acc ++ [c]]
  | acc, c :: c2 :: rest =>
    if c = '\r' && c2 = '\n' then acc :: pySplitAux [] rest
    else if isLineBreakChar c then acc :: pySplitAux [] (c2 :: rest)
    else pySplitAux (acc ++ [c]) (c2 :: rest)

/-- Python `s.splitlines()`. -/
def pySplitlines (s : String) : List String :=
  (pySplitAux [] s.data).map String.mk

/-- Whitespace stripped by Python `str.strip` / `str.rstrip` (the ASCII
whitespace characters; the repository only feeds ASCII text to these). -/
def isPySpace (c : Char) : Bool :=
  c = ' ' || c = '\t' || c = '\n' || c = '\r' || c = '\x0b' || c = '\x0c'

/-- Python `s.rstrip()`. -/
def pyRstrip (s : String) : String :=
  String.mk (s.data.reverse.dropWhile isPySpace).reverse

/-- Python `s.strip()`. -/
def pyStrip (s : String) : String :=
  String.mk ((s.data.dropWhile isPySpace).reverse.dropWhile isPySpace).reverse

/-- Python `"sep".join(items)`. -/
def joinSep (sep : String) : List String → String
  | [] => ""
  | [x] => x
  | x :: xs => x ++ sep ++ joinSep sep xs

/-- Worker for splitting a string at every `'\n'` (Python `s.split("\n")`);
the result is always nonempty and `""` maps to `[[]]`. -/
def splitNlAuxL : List Char → List (List Char)
  | [] => [[]]
  | c :: rest =>
    match splitNlAuxL rest with
    | [] => [[c]]
    | g :: gs => if c = '\n' then [] :: g :: gs else (c :: g) :: gs

/-- Python `s.split("\n")`. -/
def splitOnNl (s : String) : List String :=
  (splitNlAuxL s.data).map String.mk

/-- Worker for Python `s.rsplit(sep, 1)`: splits at the LAST occurrence of
`sep`, returning `none` when `sep` does not occur. -/
def rsplitLastAux (sep : Char) : List Char → Option (List Char × List Char)
  | [] => none
  | c :: rest =>
    match rsplitLastAux sep rest with
    | some p => some (c :: p.1, p.2)
    | none => if c = sep then some ([], rest) else none

/-- Python `f"{n:4d}"`: decimal rendering right-aligned to width 4. -/
def fmtLineNo (n : Nat) : String :=
  let digits := toString n
  String.mk (List.replicate (4 - digits.length) ' ') ++ digits

/-! ## Constants of `main.py` (lines 10-22) -/

def CODE_EXTENSIONS : List String := [".py", ".yaml", ".yml", ".toml", ".json"]

def OTHER_FILES : List String := ["README.md", "Dockerfile", "Makefile"]

def EXCLUDED_DIRS : List String :=
  [".git", "__pycache__", ".venv", "venv", "node_modules", ".mypy_cache", ".pytest_cache"]

/-! ## `parse_code` (main.py lines 56-67) -/

/-- Embedding of `parse_code`: rstrip, splitlines, number each line with a width-4
right-aligned index, a `" | "` separator and the line, and wrap in fences. -/
def parse_code (file_content : String) : String :=
  let lines := pySplitlines (pyRstrip file_content)
  let numbered := lines.enum.map (fun p => fmtLineNo (p.1 + 1) ++ " | " ++ p.2)
  joinSep "\n" ("```" :: numbered ++ ["```"])

/-! ## `retrieve_flattened_codebase` (main.py lines 25-53)

The walk `sorted(path.rglob("*"))` is modelled as an input list of entries in
walk order.  Each entry carries its path components relative to the root
(`file.parts`, with `file.relative_to(path).as_posix()` their `/`-join),
whether it is a regular file, and the outcome of `file.read_text("utf-8")`:
`some content`, or `none` for a `UnicodeDecodeError`. -/

structure FsEntry where
  parts : List String
  isFile : Bool
  readResult : Option String

/-- Python `Path.name`: the final path component. -/
def FsEntry.name (e : FsEntry) : String := e.parts.getLastD ""

/-- Python `Path.suffix`: the last dot-extension of a file name (empty when
the name has no dot, or only a leading dot). -/
def pathSuffix (name : String) : String :=
  match rsplitLastAux '.' name.data with
  | some p => if p.1 = [] then "" else String.mk ('.' :: p.2)
  | none => ""

/-- Python `file.relative_to(path).as_posix()`. -/
def FsEntry.relPath (e : FsEntry) : String := joinSep "/" e.parts

/-- The lines appended to `sections` for one walked entry, mirroring the loop
body of `retrieve_flattened_codebase`.  Note that on a `UnicodeDecodeError`
the Python `continue` skips the trailing `sections.append("")` spacing. -/
def entrySections (e : FsEntry) : List String :=
  if e.parts.any (fun p => EXCLUDED_DIRS.contains p) then []
  else if e.isFile = false then []
  else
    let hdr := "## " ++ e.relPath
    if CODE_EXTENSIONS.contains (pathSuffix e.name) || OTHER_FILES.contains e.name then
      match e.readResult with
      | none => [hdr, "_Binary or non-UTF8 file contents omitted_\n"]
      | some content => [hdr, parse_code content, ""]
    else [hdr, "_Non-code file contents omitted_\n", ""]

/-- Embedding of `retrieve_flattened_codebase` over the walked entries. -/
def retrieve_flattened_codebase (files : List FsEntry) : String :=
  joinSep "\n" (files.flatMap entrySections)

/-! ## Diff segmentation (main.py lines 95-108) -/

/-- Python `line.startswith("diff --git")`. -/
def isDiffHeader (line : String) : Bool :=
  List.isPrefixOf "diff --git".data line.data

/-- The accumulation loop of `get_diff_by_file`: `current` is the list of
lines of the chunk being built; a header line flushes a nonempty `current`
and always starts/extends the next chunk; a nonempty `current` is flushed at
the end. -/
def groupAux : List String → List String → List (List String)
  | current, [] => if current = [] then [] else [current]
  | current, line :: rest =>
    if isDiffHeader line then
      if current = [] then groupAux [line] rest
      else current :: groupAux [line] rest
    else groupAux (current ++ [line]) rest

/-- The splitting half of `get_diff_by_file` (lines 95-108): group the
`splitlines` of the diff text and re-join each group with `"\n"`. -/
def splitDiffByFile (diff : String) : List String :=
  (groupAux [] (pySplitlines diff)).map (joinSep "\n")

/-! ## `get_diff_by_file` fallback logic (main.py lines 70-93)

`_git_diff` is a subprocess call; it is modelled as an oracle from the base
branch name to either the diff text or a `CalledProcessError` message.  The
observable actions (attempted `git diff` targets, `print`ed failure logs)
are recorded as an event trace in order. -/

inductive GitEvent
  | attempt (target : String)
  | logFailure (message : String)
deriving DecidableEq, Repr

/-- Embedding of `get_diff_by_file`: try `origin/main`, on failure log and try
`origin/master`, on failure log and raise a single descriptive error;
on success split the diff into per-file chunks. -/
def get_diff_by_file (git : String → Except String String) :
    Except String (List String) × List GitEvent :=
  match git "main" with
  | Except.ok diff => (Except.ok (splitDiffByFile diff), [GitEvent.attempt "main"])
  | Except.error mainErr =>
    match git "master" with
    | Except.ok diff =>
      (Except.ok (splitDiffByFile diff),
        [GitEvent.attempt "main", GitEvent.logFailure mainErr, GitEvent.attempt "master"])
    | Except.error masterErr =>
      (Except.error "Failed to get git diff against 'main' or 'master'",
        [GitEvent.attempt "main", GitEvent.logFailure mainErr, GitEvent.attempt "master",
          GitEvent.logFailure masterErr])

/-! ## `get_rules` (main.py lines 223-234)

The rules directory is modelled by its existence flag and the list of its
`*.md` files as `(filename, content)` pairs (filenames within one directory
are distinct).  Python `sorted` on paths within one directory orders them by
filename; it is modelled with `List.insertionSort` on the name. -/

/-- The section built for one rules document: `f"## {md.name}\n{content.strip()}"`. -/
def formatRuleDoc (f : String × String) : String :=
  "## " ++ f.1 ++ "\n" ++ pyStrip f.2

/-- Python `sorted(rules_dir.glob("*.md"))` within one directory. -/
def sortRuleDocs (mdFiles : List (String × String)) : List (String × String) :=
  List.insertionSort (fun a b => a.1 ≤ b.1) mdFiles

/-- Embedding of `get_rules`: empty string when the directory does not exist, otherwise
the `"\n\n"`-joined headed documents in filename order. -/
def get_rules (dirExists : Bool) (mdFiles : List (String × String)) : String :=
  if dirExists = false then ""
  else joinSep "\n\n" ((sortRuleDocs mdFiles).map formatRuleDoc)

/-! ## `parse_repo_ref` (main.py lines 237-250) -/

/-- Embedding of `parse_repo_ref`: reject a reference without `'@'`, split at the last
`'@'` (`str.rsplit("@", 1)`), reject an empty URL or branch half, otherwise
return the pair.  `typer.BadParameter` is modelled as `Except.error`. -/
def parse_repo_ref (repo_ref : String) : Except String (String × String) :=
  match rsplitLastAux '@' repo_ref.data with
  | none => Except.error "Repository reference must be in the form 'repo-url@branch'"
  | some p =>
    if p.1 = [] || p.2 = [] then
      Except.error "Invalid repository reference. Expected 'repo-url@branch'"
    else Except.ok (String.mk p.1, String.mk p.2)

/-- From `__main__.py`: `clone_branch` is entered only after `parse_repo_ref`
returns, so a clone is attempted exactly when parsing succeeds. -/
def cloneAttempted (repo_ref : String) : Bool :=
  (parse_repo_ref repo_ref).isOk

/-! ## `get_system_prompt` (main.py lines 111-172)

The function formats a fixed template (stripped of its leading and trailing
newline) with the four inputs; `{{`/`}}` render as literal braces.  The
embedding writes the resulting document as the concatenation of the constant
template segments with the four interpolated inputs. -/

/-- The 80-character `=` separator line of the template. -/
def eqLine : String := String.mk (List.replicate 80 '=')

/-- The template text from its start through `"# User context"` and the
blank line before `{user_context}` (braces of the JSON schema literal). -/
def promptTaskBlock : String :=
  "You are a Pull Request Reviewer AI agent.\nYou will be given:\n\n" ++
  "- User Context (optional) to understand specific criteria for this review\n" ++
  "- A number of coding rules to check against the code changes\n" ++
  "- A snapshot of the repository regarding all relevant files\n" ++
  "- Code changes to review\n\n" ++
  "Your output must be a JSON object with the following structure:\n\n" ++
  "```json\n\x7b\n    \"approved\": boolean,\n    \"change_requests\": [\n        \x7b\n" ++
  "            \"file\": \"path/to/file.ext\",\n            \"line\": 123,\n" ++
  "            \"comment\": \"Description of the issue and suggested improvement\"\n" ++
  "        \x7d\n    ],\n" ++
  "    \"summary\": \"A brief summary of what the PR changes seem to be trying to achieve, and any concerns or positive feedback you have about the implementation\",\n" ++
  "\x7d\n```\n\n" ++ eqLine ++ "\n\n# User context\n\n"

/-- Template segment between `{user_context}` and `{coding_rules}`. -/
def sepCodingRules : String := "\n\n" ++ eqLine ++ "\n\n# Coding Rules\n\n"

/-- Template segment between `{coding_rules}` and `{flattened_codebase}`. -/
def sepRepoSnapshot : String := "\n\n" ++ eqLine ++ "\n\n# Repository Snapshot\n\n"

/-- Template segment between `{flattened_codebase}` and `{diffs_block}`. -/
def sepCodeChanges : String := "\n\n" ++ eqLine ++ "\n\n# Code Changes\n\n"

/-- One fenced diff chunk: `f"```{diff}\n```"`. -/
def fenceDiff (diff : String) : String := "```" ++ diff ++ "\n```"

/-- Python `diffs_block = "\n\n".join(f"```{diff}\n```" for diff in diffs)`. -/
def diffsBlock (diffs : List String) : String :=
  joinSep "\n\n" (diffs.map fenceDiff)

/-- Embedding of `get_system_prompt`: the stripped template with the four inputs
interpolated in its fixed section order. -/
def get_system_prompt (user_context coding_rules flattened_codebase : String)
    (diffs : List String) : String :=
  promptTaskBlock ++ user_context ++
  sepCodingRules ++ coding_rules ++
  sepRepoSnapshot ++ flattened_codebase ++
  sepCodeChanges ++ diffsBlock diffs

/-! ## Settings (`utils/settings.py`) and `get_partitioned_calls`
(main.py lines 253-259) -/

/-- The fields declared by `_Settings` in `settings.py` (with their defaults
when the corresponding environment variables are absent). -/
structure PySettings where
  GEMINI_API_KEY : Option String
  GEMINI_MODEL : String
  AZURE_OPENAI_ENDPOINT : Option String
  AZURE_OPENAI_KEY : Option String
  AZURE_OPENAI_MODEL : String

/-- Python `Settings = _Settings()` with no environment overrides. -/
def Settings : PySettings :=
  { GEMINI_API_KEY := none
    GEMINI_MODEL := "gemini-2.0-flash"
    AZURE_OPENAI_ENDPOINT := none
    AZURE_OPENAI_KEY := none
    AZURE_OPENAI_MODEL := "gpt-5.2" }

/-- The attribute lookup `Settings.MAX_TOKENS_CONTEXT_WINDOW` performed by
`get_partitioned_calls`: `_Settings` declares no `MAX_TOKENS_CONTEXT_WINDOW`
field (see `PySettings`), so the access raises `AttributeError`; modelled as
`none`. -/
def settingsMaxTokensContextWindow : Option Nat := none

/-- Embedding of `get_partitioned_calls`: evaluates
`len(system_prompt) / 4 < Settings.MAX_TOKENS_CONTEXT_WINDOW` (for a `Nat`
budget the exact float comparison equals `len < 4 * budget`) and returns the
single whole prompt in either branch, only logging in the oversized branch.
The attribute access fails first, modelled as `Except.error`. -/
def get_partitioned_calls (system_prompt : String) (diffs : List String) :
    Except String (List String) :=
  match settingsMaxTokensContextWindow with
  | none => Except.error "AttributeError: MAX_TOKENS_CONTEXT_WINDOW"
  | some maxTokens =>
    if system_prompt.length < 4 * maxTokens then Except.ok [system_prompt]
    else Except.ok [system_prompt]

/-! ## Helper lemmas: strings -/

theorem string_mk_data (s : String) : String.mk s.data = s := rfl

theorem string_data_inj {a b : String} (h : a.data = b.data) : a = b := by
  cases a
  cases b
  exact congrArg String.mk h

/-- Every line produced by the `splitlines` worker is free of line-break
characters, provided the accumulator is. -/
theorem pySplitAux_no_break (acc cs : List Char) :
    (∀ c ∈ acc, isLineBreakChar c = false) →
    ∀ l ∈ pySplitAux acc cs, ∀ c ∈ l, isLineBreakChar c = false := by
  induction acc, cs using pySplitAux.induct with
  | case1 =>
    intro _ l hl
    simp [pySplitAux] at hl
  | case2 acc hacc =>
    intro h l hl c hc
    have hla : l = acc := by simpa [pySplitAux, hacc] using hl
    exact h c (hla ▸ hc)
  | case3 acc c0 hb =>
    intro h l hl c hc
    have hla : l = acc := by simpa [pySplitAux, hb] using hl
    exact h c (hla ▸ hc)
  | case4 acc c0 hb =>
    intro h l hl c hc
    have hla : l = acc ++ [c0] := by simpa [pySplitAux, hb] using hl
    rw [hla] at hc
    rcases List.mem_append.mp hc with hc' | hc'
    · exact h c hc'
    · simp at hc'
      rw [hc']
      simpa using hb
  | case5 acc c0 c2 rest hcr ih =>
    intro h l hl c hc
    rw [show pySplitAux acc (c0 :: c2 :: rest) = acc :: pySplitAux [] rest by
      simp [pySplitAux, hcr]] at hl
    rcases List.mem_cons.mp hl with rfl | hl'
    · exact h c hc
    · exact ih (by simp) l hl' c hc
  | case6 acc c0 c2 rest hcr hb ih =>
    intro h l hl c hc
    rw [show pySplitAux acc (c0 :: c2 :: rest) = acc :: pySplitAux [] (c2 :: rest) by
      simp [pySplitAux, hcr, hb]] at hl
    rcases List.mem_cons.mp hl with rfl | hl'
    · exact h c hc
    · exact ih (by simp) l hl' c hc
  | case7 acc c0 c2 rest hcr hb ih =>
    intro h l hl c hc
    rw [show pySplitAux acc (c0 :: c2 :: rest) = pySplitAux (acc ++ [c0]) (c2 :: rest) by
      simp [pySplitAux, hcr, hb]] at hl
    refine ih ?_ l hl c hc
    intro x hx
    rcases List.mem_append.mp hx with hx' | hx'
    · exact h x hx'
    · simp at hx'
      rw [hx']
      simpa using hb

/-- Every line produced by `pySplitlines` contains no `'\n'`. -/
theorem pySplitlines_no_nl (s : String) (x : String) (hx : x ∈ pySplitlines s) :
    '\n' ∉ x.data := by
  intro hmem
  obtain ⟨l, hl, hxl⟩ := List.mem_map.mp (by simpa [pySplitlines] using hx)
  rw [← hxl] at hmem
  have hfalse := pySplitAux_no_break [] s.data (by simp) l hl '\n' hmem
  simp [isLineBreakChar] at hfalse

theorem splitNlAuxL_ne_nil (cs : List Char) : splitNlAuxL cs ≠ [] := by
  induction cs with
  | nil => simp [splitNlAuxL]
  | cons c rest ih =>
    cases h : splitNlAuxL rest with
    | nil => exact absurd h ih
    | cons g gs =>
      by_cases hc : c = '\n' <;> simp [splitNlAuxL, h, hc]

theorem splitNlAuxL_no_nl (l : List Char) (h : '\n' ∉ l) : splitNlAuxL l = [l] := by
  induction l with
  | nil => rfl
  | cons c rest ih =>
    have hc : ¬ c = '\n' := fun hh => h (by simp [hh])
    have hr : splitNlAuxL rest = [rest] := ih (fun hm => h (by simp [hm]))
    simp [splitNlAuxL, hr, hc]

theorem splitNlAuxL_append (l m : List Char) (h : '\n' ∉ l) :
    splitNlAuxL (l ++ '\n' :: m) = l :: splitNlAuxL m := by
  induction l with
  | nil =>
    cases hm : splitNlAuxL m with
    | nil => exact absurd hm (splitNlAuxL_ne_nil m)
    | cons g gs => simp [splitNlAuxL, hm]
  | cons c l2 ih =>
    have hc : ¬ c = '\n' := fun hh => h (by simp [hh])
    have hr := ih (fun hm => h (by simp [hm]))
    simp [splitNlAuxL, hr, hc]

theorem joinSep_nl_data (x y : String) (t : List String) :
    (joinSep "\n" (x :: y :: t)).data = x.data ++ '\n' :: (joinSep "\n" (y :: t)).data := by
  have h : joinSep "\n" (x :: y :: t) = x ++ "\n" ++ joinSep "\n" (y :: t) := rfl
  rw [h, String.data_append, String.data_append]
  simp

/-- Splitting a `"\n"`-join of newline-free nonempty groups recovers the
groups. -/
theorem splitOnNl_joinSep (g : List String) :
    g ≠ [] → (∀ x ∈ g, '\n' ∉ x.data) → splitOnNl (joinSep "\n" g) = g := by
  induction g with
  | nil => intro h _; exact absurd rfl h
  | cons x t ih =>
    intro _ hfree
    cases t with
    | nil =>
      show splitOnNl x = [x]
      unfold splitOnNl
      rw [splitNlAuxL_no_nl x.data (hfree x (by simp))]
      simp [string_mk_data]
    | cons y t2 =>
      have hx : '\n' ∉ x.data := hfree x (by simp)
      unfold splitOnNl
      rw [joinSep_nl_data, splitNlAuxL_append x.data _ hx]
      rw [List.map_cons, string_mk_data]
      have hrec := ih (by simp) (fun z hz => hfree z (by simp [hz]))
      rw [show (splitNlAuxL (joinSep "\n" (y :: t2)).data).map String.mk =
        splitOnNl (joinSep "\n" (y :: t2)) from rfl, hrec]

theorem flatMap_splitOnNl (groups : List (List String)) :
    (∀ g ∈ groups, g ≠ []) → (∀ g ∈ groups, ∀ x ∈ g, '\n' ∉ x.data) →
    (groups.map (joinSep "\n")).flatMap splitOnNl = groups.flatten := by
  induction groups with
  | nil => intro _ _; rfl
  | cons g t ih =>
    intro h1 h2
    simp only [List.map_cons, List.flatMap_cons, List.flatten_cons]
    rw [splitOnNl_joinSep g (h1 g (by simp)) (h2 g (by simp)),
      ih (fun g2 hg2 => h1 g2 (by simp [hg2])) (fun g2 hg2 => h2 g2 (by simp [hg2]))]

/-! ## Helper lemmas: the chunk-grouping loop -/

theorem groupAux_flatten (ls : List String) :
    ∀ cur, (groupAux cur ls).flatten = cur ++ ls := by
  induction ls with
  | nil =>
    intro cur
    by_cases h : cur = [] <;> simp [groupAux, h]
  | cons line rest ih =>
    intro cur
    by_cases hh : isDiffHeader line = true
    · by_cases hc : cur = [] <;> simp [groupAux, hh, hc, ih]
    · simp [groupAux, hh, ih]

theorem groupAux_ne_nil (ls : List String) :
    ∀ cur g, g ∈ groupAux cur ls → g ≠ [] := by
  induction ls with
  | nil =>
    intro cur g hg
    by_cases h : cur = []
    · simp [groupAux, h] at hg
    · have hgc : g = cur := by simpa [groupAux, h] using hg
      rw [hgc]; exact h
  | cons line rest ih =>
    intro cur g hg
    by_cases hh : isDiffHeader line = true
    · by_cases hc : cur = []
      · rw [show groupAux cur (line :: rest) = groupAux [line] rest by
          simp [groupAux, hh, hc]] at hg
        exact ih [line] g hg
      · rw [show groupAux cur (line :: rest) = cur :: groupAux [line] rest by
          simp [groupAux, hh, hc]] at hg
        rcases List.mem_cons.mp hg with rfl | hg2
        · exact hc
        · exact ih [line] g hg2
    · rw [show groupAux cur (line :: rest) = groupAux (cur ++ [line]) rest by
        simp [groupAux, hh]] at hg
      exact ih _ g hg

theorem groupAux_mem_mem (ls : List String) :
    ∀ cur g x, g ∈ groupAux cur ls → x ∈ g → x ∈ cur ∨ x ∈ ls := by
  induction ls with
  | nil =>
    intro cur g x hg hx
    by_cases h : cur = []
    · simp [groupAux, h] at hg
    · have hgc : g = cur := by simpa [groupAux, h] using hg
      exact Or.inl (hgc ▸ hx)
  | cons line rest ih =>
    intro cur g x hg hx
    by_cases hh : isDiffHeader line = true
    · by_cases hc : cur = []
      · rw [show groupAux cur (line :: rest) = groupAux [line] rest by
          simp [groupAux, hh, hc]] at hg
        rcases ih [line] g x hg hx with h2 | h2
        · simp at h2; exact Or.inr (by simp [h2])
        · exact Or.inr (by simp [h2])
      · rw [show groupAux cur (line :: rest) = cur :: groupAux [line] rest by
          simp [groupAux, hh, hc]] at hg
        rcases List.mem_cons.mp hg with rfl | hg2
        · exact Or.inl hx
        · rcases ih [line] g x hg2 hx with h2 | h2
          · simp at h2; exact Or.inr (by simp [h2])
          · exact Or.inr (by simp [h2])
    · rw [show groupAux cur (line :: rest) = groupAux (cur ++ [line]) rest by
        simp [groupAux, hh]] at hg
      rcases ih _ g x hg hx with h2 | h2
      · rcases List.mem_append.mp h2 with h3 | h3
        · exact Or.inl h3
        · simp at h3; exact Or.inr (by simp [h3])
      · exact Or.inr (by simp [h2])

theorem groupAux_no_header (bs : List String)
    (hbs : ∀ l ∈ bs, isDiffHeader l = false) :
    ∀ cur rest, groupAux cur (bs ++ rest) = groupAux (cur ++ bs) rest := by
  induction bs with
  | nil => intro cur rest; simp
  | cons b bs2 ih =>
    intro cur rest
    have hb : isDiffHeader b = false := hbs b (by simp)
    calc groupAux cur ((b :: bs2) ++ rest)
        = groupAux (cur ++ [b]) (bs2 ++ rest) := by simp [groupAux, hb]
      _ = groupAux ((cur ++ [b]) ++ bs2) rest :=
          ih (fun l hl => hbs l (by simp [hl])) (cur ++ [b]) rest
      _ = groupAux (cur ++ b :: bs2) rest := by simp

theorem groupAux_header (hd : String) (hh : isDiffHeader hd = true)
    (cur rest : List String) :
    groupAux cur (hd :: rest) = (if cur = [] then [] else [cur]) ++ groupAux [hd] rest := by
  by_cases hc : cur = [] <;> simp [groupAux, hh, hc]

/-! ## Claims C10 and C1: diff segmentation -/

/-- C10: diff segmentation is lossless: concatenating the lines of the
returned chunks, in order, yields exactly the lines of the input diff
(including any lines before the first `diff --git` header), and the empty
diff yields an empty chunk list. -/
theorem c10_lossless_partition :
    (∀ s : String, (splitDiffByFile s).flatMap splitOnNl = pySplitlines s) ∧
    splitDiffByFile "" = [] := by
  constructor
  · intro s
    unfold splitDiffByFile
    have h1 : ∀ g ∈ groupAux [] (pySplitlines s), g ≠ [] :=
      fun g hg => groupAux_ne_nil _ [] g hg
    have h2 : ∀ g ∈ groupAux [] (pySplitlines s), ∀ x ∈ g, '\n' ∉ x.data := by
      intro g hg x hx
      rcases groupAux_mem_mem _ [] g x hg hx with h3 | h3
      · simp at h3
      · exact pySplitlines_no_nl s x h3
    rw [flatMap_splitOnNl _ h1 h2, groupAux_flatten _ []]
    simp
  · rfl

/-- C1 (amended): splitting on `diff --git` header lines keeps any text
before the first header as one extra leading chunk (it is NOT dropped);
after it there is one chunk per header line, each chunk starting at its
header line, the trailing chunk after the last header being preserved.  In
particular a diff with exactly two header lines and no preceding text yields
exactly two chunks. -/
theorem c1_segmentation_structure (s : String) (pre b1 b2 : List String)
    (h1 h2 : String)
    (hs : pySplitlines s = pre ++ h1 :: (b1 ++ h2 :: b2))
    (hpre : ∀ l ∈ pre, isDiffHeader l = false)
    (hh1 : isDiffHeader h1 = true)
    (hb1 : ∀ l ∈ b1, isDiffHeader l = false)
    (hh2 : isDiffHeader h2 = true)
    (hb2 : ∀ l ∈ b2, isDiffHeader l = false) :
    splitDiffByFile s =
      (if pre = [] then [] else [joinSep "\n" pre]) ++
      [joinSep "\n" (h1 :: b1), joinSep "\n" (h2 :: b2)] := by
  unfold splitDiffByFile
  rw [hs, groupAux_no_header pre hpre [] _, List.nil_append,
    groupAux_header h1 hh1 pre _,
    groupAux_no_header b1 hb1 [h1] _,
    show ([h1] ++ b1) = h1 :: b1 from rfl,
    groupAux_header h2 hh2 (h1 :: b1) b2,
    show groupAux [h2] b2 = groupAux [h2] (b2 ++ []) by simp,
    groupAux_no_header b2 hb2 [h2] [],
    show groupAux ([h2] ++ b2) [] = [h2 :: b2] by simp [groupAux]]
  by_cases hp : pre = [] <;> simp [hp]

/-- C1 counterexample: on diff text with two `diff --git` header lines but
preceding text, the code yields THREE chunks, the first being the preserved
preamble (the claim predicts exactly two chunks and a dropped preamble). -/
theorem c1_counterexample :
    (pySplitlines "junk\ndiff --git a/x b/x\n+1\ndiff --git a/y b/y\n+2").countP
        isDiffHeader = 2 ∧
    splitDiffByFile "junk\ndiff --git a/x b/x\n+1\ndiff --git a/y b/y\n+2" =
      ["junk", "diff --git a/x b/x\n+1", "diff --git a/y b/y\n+2"] ∧
    (splitDiffByFile "junk\ndiff --git a/x b/x\n+1\ndiff --git a/y b/y\n+2").length ≠ 2 ∧
    isDiffHeader "junk" = false := by
  decide

/-- Witness for `c1_segmentation_structure` at a concrete two-file diff with
no preamble: exactly two chunks, each starting at its header line. -/
theorem c1_witness :
    splitDiffByFile "diff --git a/x b/x\n+1\ndiff --git a/y b/y\n+2" =
      ["diff --git a/x b/x\n+1", "diff --git a/y b/y\n+2"] := by
  have h := c1_segmentation_structure
    "diff --git a/x b/x\n+1\ndiff --git a/y b/y\n+2"
    [] ["+1"] ["+2"] "diff --git a/x b/x" "diff --git a/y b/y"
    (by decide) (by decide) (by decide) (by decide) (by decide) (by decide)
  exact h.trans (by decide)

/-! ## Helper lemmas: splitting at the last separator occurrence -/

theorem rsplitLastAux_eq_none (sep : Char) (cs : List Char) (h : sep ∉ cs) :
    rsplitLastAux sep cs = none := by
  induction cs with
  | nil => rfl
  | cons c rest ih =>
    have hc : ¬ c = sep := fun hh => h (by simp [hh])
    simp [rsplitLastAux, ih (fun hm => h (by simp [hm])), hc]

theorem not_mem_of_rsplitLastAux_eq_none (sep : Char) :
    ∀ (cs : List Char), rsplitLastAux sep cs = none → sep ∉ cs := by
  intro cs
  induction cs with
  | nil => intro _; simp
  | cons c rest ih =>
    intro h hmem
    cases hr : rsplitLastAux sep rest with
    | some p =>
      rw [show rsplitLastAux sep (c :: rest) = some (c :: p.1, p.2) by
        simp [rsplitLastAux, hr]] at h
      exact absurd h (by simp)
    | none =>
      by_cases hc : c = sep
      · rw [show rsplitLastAux sep (c :: rest) = some ([], rest) by
          simp [rsplitLastAux, hr, hc]] at h
        exact absurd h (by simp)
      · rcases List.mem_cons.mp hmem with h2 | h2
        · exact hc h2.symm
        · exact ih hr h2

theorem rsplitLastAux_append (sep : Char) (u b : List Char) (hb : sep ∉ b) :
    rsplitLastAux sep (u ++ sep :: b) = some (u, b) := by
  induction u with
  | nil => simp [rsplitLastAux, rsplitLastAux_eq_none sep b hb]
  | cons c u2 ih => simp [rsplitLastAux, ih]

theorem rsplitLastAux_some (sep : Char) (cs : List Char) :
    ∀ u b, rsplitLastAux sep cs = some (u, b) → cs = u ++ sep :: b ∧ sep ∉ b := by
  induction cs with
  | nil => intro u b h; simp [rsplitLastAux] at h
  | cons c rest ih =>
    intro u b h
    cases hr : rsplitLastAux sep rest with
    | some p =>
      rw [show rsplitLastAux sep (c :: rest) = some (c :: p.1, p.2) by
        simp [rsplitLastAux, hr]] at h
      injection h with h2
      have hu : u = c :: p.1 := (congrArg Prod.fst h2).symm
      have hb : b = p.2 := (congrArg Prod.snd h2).symm
      subst hu
      subst hb
      obtain ⟨hrest, hnb⟩ := ih p.1 p.2 (by rw [hr])
      exact ⟨by rw [hrest]; rfl, hnb⟩
    | none =>
      by_cases hc : c = sep
      · rw [show rsplitLastAux sep (c :: rest) = some ([], rest) by
          simp [rsplitLastAux, hr, hc]] at h
        injection h with h2
        have hu : u = [] := (congrArg Prod.fst h2).symm
        have hb : b = rest := (congrArg Prod.snd h2).symm
        subst hu
        subst hb
        exact ⟨by simp [hc], not_mem_of_rsplitLastAux_eq_none sep b hr⟩
      · rw [show rsplitLastAux sep (c :: rest) = none by
          simp [rsplitLastAux, hr, hc]] at h
        exact absurd h (by simp)

/-! ## Claims C3 and C9: repository-reference parsing -/

/-- C3: a reference with no `'@'`, or with an empty URL half or branch half
(splitting at the last `'@'`), is rejected with the corresponding validation
error and no clone is attempted; any other reference parses to the
`(url, branch)` pair. -/
theorem c3_parse_repo_ref_validation (s : String) :
    (('@' ∉ s.data) →
      parse_repo_ref s =
        Except.error "Repository reference must be in the form 'repo-url@branch'" ∧
      cloneAttempted s = false) ∧
    (∀ u b : String, s.data = u.data ++ '@' :: b.data → '@' ∉ b.data →
      (u.data = [] ∨ b.data = []) →
      parse_repo_ref s =
        Except.error "Invalid repository reference. Expected 'repo-url@branch'" ∧
      cloneAttempted s = false) ∧
    (∀ u b : String, s.data = u.data ++ '@' :: b.data → '@' ∉ b.data →
      u.data ≠ [] → b.data ≠ [] →
      parse_repo_ref s = Except.ok (u, b) ∧ cloneAttempted s = true) := by
  refine ⟨?_, ?_, ?_⟩
  · intro h
    have hp : parse_repo_ref s =
        Except.error "Repository reference must be in the form 'repo-url@branch'" := by
      unfold parse_repo_ref
      rw [rsplitLastAux_eq_none '@' s.data h]
    exact ⟨hp, by unfold cloneAttempted; rw [hp]; rfl⟩
  · intro u b hsd hnb hemp
    have hr : rsplitLastAux '@' s.data = some (u.data, b.data) := by
      rw [hsd]; exact rsplitLastAux_append '@' u.data b.data hnb
    have hp : parse_repo_ref s =
        Except.error "Invalid repository reference. Expected 'repo-url@branch'" := by
      unfold parse_repo_ref
      rw [hr]
      rcases hemp with he | he <;> simp [he]
    exact ⟨hp, by unfold cloneAttempted; rw [hp]; rfl⟩
  · intro u b hsd hnb hu hb
    have hr : rsplitLastAux '@' s.data = some (u.data, b.data) := by
      rw [hsd]; exact rsplitLastAux_append '@' u.data b.data hnb
    have hp : parse_repo_ref s = Except.ok (u, b) := by
      unfold parse_repo_ref
      rw [hr]
      simp [hu, hb, string_mk_data]
    exact ⟨hp, by unfold cloneAttempted; rw [hp]; rfl⟩

/-- Witness for `c3_parse_repo_ref_validation`: a reference without `'@'`
and one with an empty URL half are rejected (no clone attempted); a
well-formed reference parses. -/
theorem c3_witness :
    (parse_repo_ref "norefseparator" =
      Except.error "Repository reference must be in the form 'repo-url@branch'" ∧
      cloneAttempted "norefseparator" = false) ∧
    (parse_repo_ref "@branch" =
      Except.error "Invalid repository reference. Expected 'repo-url@branch'" ∧
      cloneAttempted "@branch" = false) ∧
    parse_repo_ref "https://example.com/r.git@feature-x" =
      Except.ok ("https://example.com/r.git", "feature-x") := by
  refine ⟨?_, ?_, ?_⟩
  · exact (c3_parse_repo_ref_validation "norefseparator").1 (by decide)
  · exact (c3_parse_repo_ref_validation "@branch").2.1 "" "branch"
      (by decide) (by decide) (Or.inl (by decide))
  · exact ((c3_parse_repo_ref_validation "https://example.com/r.git@feature-x").2.2
      "https://example.com/r.git" "feature-x"
      (by decide) (by decide) (by decide) (by decide)).1

/-- C9: `parse_repo_ref` splits at the LAST `'@'`: whenever it returns
`(url, branch)`, then `url ++ "@" ++ branch` is the input and the branch
half contains no `'@'` (so ssh-style URLs containing `'@'` stay within the
url half). -/
theorem c9_rsplit_last (s u b : String)
    (h : parse_repo_ref s = Except.ok (u, b)) :
    u ++ "@" ++ b = s ∧ '@' ∉ b.data := by
  cases hr : rsplitLastAux '@' s.data with
  | none =>
    have hp : parse_repo_ref s =
        Except.error "Repository reference must be in the form 'repo-url@branch'" := by
      unfold parse_repo_ref
      rw [hr]
    rw [hp] at h
    exact absurd h (by simp)
  | some p =>
    by_cases hc : p.1 = [] ∨ p.2 = []
    · have hp : parse_repo_ref s =
          Except.error "Invalid repository reference. Expected 'repo-url@branch'" := by
        unfold parse_repo_ref
        rw [hr]
        rcases hc with he | he <;> simp [he]
      rw [hp] at h
      exact absurd h (by simp)
    · push_neg at hc
      have hp : parse_repo_ref s = Except.ok (String.mk p.1, String.mk p.2) := by
        unfold parse_repo_ref
        rw [hr]
        simp [hc.1, hc.2]
      rw [hp] at h
      injection h with h2
      have hu : u = String.mk p.1 := (congrArg Prod.fst h2).symm
      have hb : b = String.mk p.2 := (congrArg Prod.snd h2).symm
      obtain ⟨hcs, hnb⟩ := rsplitLastAux_some '@' s.data p.1 p.2 (by rw [hr])
      constructor
      · apply string_data_inj
        rw [String.data_append, String.data_append, hu, hb, hcs]
        simp [string_mk_data]
      · rw [hb]
        exact hnb

/-- Witness for `c9_rsplit_last` at an ssh-style reference whose URL itself
contains `'@'`. -/
theorem c9_witness :
    ("git@github.com:user/repo.git" ++ "@" ++ "dev" = "git@github.com:user/repo.git@dev") ∧
    '@' ∉ ("dev" : String).data :=
  c9_rsplit_last "git@github.com:user/repo.git@dev" "git@github.com:user/repo.git" "dev" rfl

/-! ## Claim C4: base-branch fallback -/

/-- C4: `get_diff_by_file` attempts `main` first; `master` is attempted only
when `main` fails, with the first failure logged between the two attempts;
the descriptive error is raised exactly when both attempts fail. -/
theorem c4_base_branch_fallback (git : String → Except String String) :
    (∀ d, git "main" = Except.ok d →
      get_diff_by_file git =
        (Except.ok (splitDiffByFile d), [GitEvent.attempt "main"])) ∧
    (∀ e d, git "main" = Except.error e → git "master" = Except.ok d →
      get_diff_by_file git =
        (Except.ok (splitDiffByFile d),
          [GitEvent.attempt "main", GitEvent.logFailure e, GitEvent.attempt "master"])) ∧
    (∀ e e2, git "main" = Except.error e → git "master" = Except.error e2 →
      get_diff_by_file git =
        (Except.error "Failed to get git diff against 'main' or 'master'",
          [GitEvent.attempt "main", GitEvent.logFailure e, GitEvent.attempt "master",
            GitEvent.logFailure e2])) ∧
    (((get_diff_by_file git).1.isOk = false) ↔
      ((git "main").isOk = false ∧ (git "master").isOk = false)) := by
  refine ⟨?_, ?_, ?_, ?_⟩
  · intro d h1
    simp [get_diff_by_file, h1]
  · intro e d h1 h2
    simp [get_diff_by_file, h1, h2]
  · intro e e2 h1 h2
    simp [get_diff_by_file, h1, h2]
  · cases h1 : git "main" <;> cases h2 : git "master" <;>
      simp [get_diff_by_file, h1, h2, Except.isOk, Except.toBool]

/-- A concrete oracle where the diff against `main` fails and the one
against `master` succeeds. -/
def gitMainFails : String → Except String String := fun target =>
  if target = "main" then Except.error "fatal: ambiguous argument"
  else Except.ok "diff --git a/f b/f\n+x"

/-- Witness for `c4_base_branch_fallback`: with `gitMainFails` the run
attempts `main`, logs its failure, then attempts `master` and succeeds. -/
theorem c4_witness :
    get_diff_by_file gitMainFails =
      (Except.ok ["diff --git a/f b/f\n+x"],
        [GitEvent.attempt "main", GitEvent.logFailure "fatal: ambiguous argument",
          GitEvent.attempt "master"]) := by
  have h := (c4_base_branch_fallback gitMainFails).2.1
    "fatal: ambiguous argument" "diff --git a/f b/f\n+x" rfl rfl
  refine h.trans ?_
  have hsplit : splitDiffByFile "diff --git a/f b/f\n+x" = ["diff --git a/f b/f\n+x"] := by
    decide
  rw [hsplit]

/-! ## Claim C5: numbered rendering of file content -/

/-- C5: `parse_code` on `"a\nb"` produces a fenced block whose numbered
lines are exactly `"   1 | a"` and `"   2 | b"` (width-4 right-aligned line
number, `" | "` separator, then the line). -/
theorem c5_parse_code_numbering :
    parse_code "a\nb" = "```\n   1 | a\n   2 | b\n```" ∧
    splitOnNl (parse_code "a\nb") = ["```", "   1 | a", "   2 | b", "```"] := by
  decide

/-! ## Claim C6: decode-error omission marker -/

/-- C6: a file recognised as textual whose UTF-8 decoding fails contributes
its path heading followed by the explicit omission marker in place of its
content, and flattening continues with the remaining files. -/
theorem c6_decode_error_marker (pre post : List FsEntry) (e : FsEntry)
    (hexc : e.parts.any (fun p => EXCLUDED_DIRS.contains p) = false)
    (hfile : e.isFile = true)
    (htext : (CODE_EXTENSIONS.contains (pathSuffix e.name) ||
      OTHER_FILES.contains e.name) = true)
    (hread : e.readResult = none) :
    retrieve_flattened_codebase (pre ++ e :: post) =
      joinSep "\n" (pre.flatMap entrySections ++
        ("## " ++ e.relPath) :: "_Binary or non-UTF8 file contents omitted_\n" ::
        post.flatMap entrySections) := by
  unfold retrieve_flattened_codebase
  rw [List.flatMap_append, List.flatMap_cons]
  have he : entrySections e =
      [("## " ++ e.relPath), "_Binary or non-UTF8 file contents omitted_\n"] := by
    have hexc2 : ¬ ∃ x ∈ e.parts, x ∈ EXCLUDED_DIRS := by simpa using hexc
    have htext2 : pathSuffix e.name ∈ CODE_EXTENSIONS ∨ e.name ∈ OTHER_FILES := by
      simpa using htext
    simp [entrySections, hexc2, hfile, htext2, hread]
  rw [he]
  simp

/-- Witness for `c6_decode_error_marker`: a non-decodable `.py` file followed
by a readable one. -/
theorem c6_witness :
    retrieve_flattened_codebase
      [⟨["data.py"], true, none⟩, ⟨["app.py"], true, some "x"⟩] =
      "## data.py\n_Binary or non-UTF8 file contents omitted_\n\n## app.py\n```\n   1 | x\n```\n" := by
  have h := c6_decode_error_marker [] [⟨["app.py"], true, some "x"⟩]
    ⟨["data.py"], true, none⟩ (by decide) rfl (by decide) rfl
  exact h.trans (by decide)

/-! ## Claim C7: rules loader -/

/-- C7: a missing rules directory (or one containing no rules documents)
yields the empty string without raising; otherwise every document appears,
sorted by filename, each prefixed with a heading naming it. -/
theorem c7_rules_loader :
    (∀ mdFiles : List (String × String), get_rules false mdFiles = "") ∧
    get_rules true [] = "" ∧
    (∀ mdFiles : List (String × String),
      (sortRuleDocs mdFiles).Perm mdFiles ∧
      ((sortRuleDocs mdFiles).map Prod.fst).Pairwise (fun a b => a ≤ b) ∧
      get_rules true mdFiles =
        joinSep "\n\n" ((sortRuleDocs mdFiles).map formatRuleDoc)) := by
  refine ⟨fun _ => rfl, rfl, fun mdFiles => ⟨List.perm_insertionSort _ _, ?_, rfl⟩⟩
  have hs : List.Sorted (fun a b : String × String => a.1 ≤ b.1) (sortRuleDocs mdFiles) := by
    haveI : IsTotal (String × String) (fun a b => a.1 ≤ b.1) :=
      ⟨fun a b => le_total a.1 b.1⟩
    haveI : IsTrans (String × String) (fun a b => a.1 ≤ b.1) :=
      ⟨fun _ _ _ hab hbc => le_trans hab hbc⟩
    exact List.sorted_insertionSort _ _
  exact List.pairwise_map.mpr hs

/-! ## Claim C8: prompt composition -/

/-- C8: prompt composition is deterministic in its four inputs; the output
is the fixed task/schema block, then user instructions, rules, codebase and
diff chunks in that order separated by the constant template segments; each
diff chunk is individually fenced, so changing one input changes only its
own section. -/
theorem c8_prompt_composition :
    (∀ (u r cb : String) (ds : List String) (u2 r2 cb2 : String) (ds2 : List String),
      u = u2 → r = r2 → cb = cb2 → ds = ds2 →
      get_system_prompt u r cb ds = get_system_prompt u2 r2 cb2 ds2) ∧
    (∀ (u r cb : String) (ds : List String),
      get_system_prompt u r cb ds =
        promptTaskBlock ++ u ++ sepCodingRules ++ r ++ sepRepoSnapshot ++ cb ++
          sepCodeChanges ++ diffsBlock ds) ∧
    diffsBlock [] = "" ∧
    (∀ d, diffsBlock [d] = "```" ++ d ++ "\n```") ∧
    (∀ d d2 ds, diffsBlock (d :: d2 :: ds) =
      ("```" ++ d ++ "\n```") ++ "\n\n" ++ diffsBlock (d2 :: ds)) := by
  refine ⟨?_, fun _ _ _ _ => rfl, rfl, fun _ => rfl, fun _ _ _ => rfl⟩
  intro u r cb ds u2 r2 cb2 ds2 h1 h2 h3 h4
  subst h1
  subst h2
  subst h3
  subst h4
  rfl

/-- Witness for `c8_prompt_composition` at concrete inputs. -/
theorem c8_witness :
    get_system_prompt "inst" "rules" "code" ["d1", "d2"] =
      get_system_prompt "inst" "rules" "code" ["d1", "d2"] :=
  c8_prompt_composition.1 "inst" "rules" "code" ["d1", "d2"]
    "inst" "rules" "code" ["d1", "d2"] rfl rfl rfl rfl

/-! ## Claim C2: `get_partitioned_calls` -/

/-- C2: `get_partitioned_calls` never returns the whole prompt: because
`_Settings` declares no `MAX_TOKENS_CONTEXT_WINDOW` field, the attribute
access raises `AttributeError` on every call, before the token estimate is
even compared (the claim and spec describe a configured budget with a
documented default and a warn-but-submit behaviour). -/
theorem c2_partitioned_calls_attribute_error :
    ∀ (system_prompt : String) (diffs : List String),
      get_partitioned_calls system_prompt diffs =
        Except.error "AttributeError: MAX_TOKENS_CONTEXT_WINDOW" :=
  fun _ _ => rfl

end PRReviewer
